import Mathlib

/-!
Verification development for the SiffROI repository (src/siffroi).

The Python source is shallowly embedded: boolean numpy masks become nested
lists of `Bool`, float geometry becomes `ℚ` where the source computes exact
rational values (pixel sums, centers of mass, the shoelace formula) and `ℝ`
where the source uses transcendental functions (`np.angle`, `np.exp`,
`np.pi`); `np.angle` is idealised as `Complex.arg` (both have range
`(-π, π]`).  Fallible Python code returns `Except PyError`.
-/

namespace SiffROI

/-- Python exception kinds raised by the modelled code.  The constructor
`noROI` stands for the `NoROIError` class imported from
`siffroi.utils.exceptions`; that module is not present under `src/`, so the
class itself is modelled from the spec (§7: the *No-ROI* error kind, raised
when a Region is constructed with no mask and no polygon+shape, when
`from_rois` is given an empty list, etc.).  All raise sites that matter to
the claims are in files that are present under `src/`. -/
inductive PyError where
  | valueError (msg : String)
  | notImplementedError (msg : String)
  | indexError (msg : String)
  | typeError (msg : String)
  | noROI (msg : String)
  deriving Repr, DecidableEq

/-- A 2-D boolean mask (one image plane), row-major: rows of pixels. -/
abbrev Mask2 := List (List Bool)

/-- A 3-D boolean mask over an image volume, plane-major. -/
abbrev Mask3 := List Mask2

/-- A polygon: a list of vertices, each a list of coordinates (the source
only ever reads the last two coordinates of each vertex). -/
abbrev Polygon := List (List ℚ)

/-- Height (number of rows) of a 2-D mask. -/
def height2 (m : Mask2) : ℕ := m.length

/-- Width of a 2-D mask, read off the first row as numpy shape would be. -/
def width2 (m : Mask2) : ℕ := (m.getD 0 []).length

/-- Pixel lookup in a 2-D mask; out-of-range reads are `false` (numpy would
raise, but all modelled accesses are in range for well-shaped inputs). -/
def maskAt (m : Mask2) (p : ℕ × ℕ) : Bool := (m.getD p.1 []).getD p.2 false

/-- Whether any pixel of a 2-D mask is set: models `np.any(slice_mask)`. -/
def anyTrue2 (m : Mask2) : Bool := m.any (fun row => row.any (fun b => b))

/-- Elementwise logical OR of two 2-D masks (`np.logical_or` for equal
shapes; shapes are equal at every modelled call site). -/
def or2 (a b : Mask2) : Mask2 := List.zipWith (fun r s => List.zipWith or r s) a b

/-- Elementwise logical OR of two 3-D masks. -/
def or3 (a b : Mask3) : Mask3 := List.zipWith or2 a b

/-- Total number of `true` pixels of a 3-D mask: models `np.sum(shape)` on a
boolean array. -/
def npSum3 (m : Mask3) : ℕ :=
  (m.map (fun pl => (pl.map (fun row => row.countP (fun b => b))).sum)).sum

/-- Whether plane `z` of a 3-D mask has any pixel set:
models `np.any(shape[z])`. -/
def anyPlane (m : Mask3) (z : ℕ) : Bool := anyTrue2 (m.getD z [])

/-- All-false 3-D mask of the given volume shape:
models `np.zeros(image_shape, dtype=bool)`. -/
def zeros3 (Z H W : ℕ) : Mask3 :=
  List.replicate Z (List.replicate H (List.replicate W false))

/-- Cyclic right shift by one: models `np.roll(v, 1)` on a 1-D array. -/
def roll1 (l : List α) : List α := l.getLast?.toList ++ l.dropLast

/-- Dot product of two equal-length rational vectors (`np.dot`). -/
def dotQ (xs ys : List ℚ) : ℚ := (List.zipWith (fun a b => a * b) xs ys).sum

/-- Last coordinate of a vertex: `vertices[..., -1]` (the x axis). -/
def lastCoord (v : List ℚ) : ℚ := v.getLastD 0

/-- Second-to-last coordinate of a vertex: `vertices[..., -2]` (the y axis). -/
def sndLastCoord (v : List ℚ) : ℚ := v.dropLast.getLastD 0

/-- The signed shoelace sum
`np.dot(x, np.roll(y,1)) - np.dot(y, np.roll(x,1))` with `x` the last and
`y` the second-to-last coordinate of each vertex. -/
def shoelace (vs : Polygon) : ℚ :=
  dotQ (vs.map lastCoord) (roll1 (vs.map sndLastCoord)) -
    dotQ (vs.map sndLastCoord) (roll1 (vs.map lastCoord))

/-- `polygon_area` from `siffroi/utils/__init__.py`:
`0.5*np.abs(np.dot(x,np.roll(y,1))-np.dot(y,np.roll(x,1)))`. -/
def polygon_area (vs : Polygon) : ℚ := (1 / 2) * |shoelace vs|

/-- numpy rounding (`np.round` to 0 decimals): round half to even. -/
def npRound (q : ℚ) : ℤ :=
  let f := Int.floor q
  let r := q - f
  if r < 1 / 2 then f
  else if 1 / 2 < r then f + 1
  else if f % 2 = 0 then f else f + 1

/-- Insert index `i` into an index list that is already sorted by `keys`,
keeping ascending key order and stability (equal keys keep earlier index
first). -/
def insertIdxBy [LinearOrder α] [Inhabited α] (keys : List α) (i : ℕ) :
    List ℕ → List ℕ
  | [] => [i]
  | j :: rest =>
    if keys.getD i default ≤ keys.getD j default then i :: j :: rest
    else j :: insertIdxBy keys i rest

/-- Index sort ascending by key: models `np.argsort(keys)`.  numpy's default
quicksort is not stable on ties; the model commits to the stable order
(ties keep the original index order), which agrees with numpy whenever the
keys are distinct — every concrete input used below has distinct keys. -/
def argsort [LinearOrder α] [Inhabited α] (keys : List α) : List ℕ :=
  (List.range keys.length).foldr (insertIdxBy keys) []

/-- A raw shape handed to the selection utilities: either a boolean mask
(`dtype == bool`) or a polygon vertex array. -/
inductive PyShape where
  | mask (m : Mask3)
  | poly (p : Polygon)
  deriving Repr, DecidableEq

/-- Whether a shape is a boolean mask: models `shape.dtype == bool`. -/
def PyShape.isMask : PyShape → Bool
  | .mask _ => true
  | .poly _ => false

/-- The mask payload of a shape (default `[]`; only read on mask shapes). -/
def maskD : PyShape → Mask3
  | .mask m => m
  | .poly _ => []

/-- The polygon payload of a shape (default `[]`; only read on polygons). -/
def polyD : PyShape → Polygon
  | .mask _ => []
  | .poly p => p

/-- First coordinate of the first vertex: `shape[0][0]` for a polygon. -/
def firstCoord (p : Polygon) : ℚ := (p.getD 0 []).getD 0 0

/-- The `slice_idx = None if (slice_idx is None) or (slice_idx < 0) else
slice_idx` normalisation. -/
def effectiveSlice (slice_idx : Option ℤ) : Option ℤ :=
  match slice_idx with
  | none => none
  | some s => if s < 0 then none else some s

/-- The masks that are nonempty on plane `z`:
`[shape for shape in shapes if np.any(shape[z])]`. -/
def planeCandidates (masks : List Mask3) (z : ℕ) : List Mask3 :=
  masks.filter (fun m => anyPlane m z)

/-- One plane of the `slice_idx is None` mask path of
`nth_largest_shape_in_list`: among the masks nonempty on plane `z`, sorted
by total pixel count, pick `slicewise_shapes[sorted_slicewise[-n]]`; a plane
with no nonempty candidate contributes `np.zeros(image_shape)`.  Python
raises `IndexError` when the plane has fewer than `n` candidates (the `-n`
index is out of bounds). -/
def planePick (masks : List Mask3) (zeros : Mask3) (n : ℕ) (z : ℕ) :
    Except PyError Mask3 :=
  let cands := planeCandidates masks z
  if cands.length = 0 then .ok zeros
  else
    let sorted := argsort (cands.map npSum3)
    if n ≤ sorted.length then
      .ok (cands.getD (sorted.getD (sorted.length - n) 0) [])
    else .error (.indexError "index out of bounds for axis 0")

/-- `np.logical_or.reduce` over a list of equally shaped 3-D masks. -/
def reduceOr : List Mask3 → Mask3
  | [] => []
  | m :: rest => rest.foldl or3 m

/-- `nth_largest_shape_in_list` from `siffroi/utils/__init__.py`.

The image shape is the `(Z, H, W)` volume shape.  Modelling notes, each
traced from the source:
* the two `ValueError` guards (empty list; `n` out of `1..len(shapes)`)
  run before anything else;
* with `slice_idx` unset and all-mask input, selection is per plane and the
  per-plane picks (full 3-D masks, or full-volume zeros for planes with no
  nonempty candidate) are OR-reduced;
* with `slice_idx` unset and non-mask input the source raises
  `NotImplementedError`;
* with `slice_idx` set, the filter `np.round(shape[0][0]) == slice_idx`
  evaluates `shape[0][0]` — for a 3-D boolean mask that is a whole row, and
  comparing it with a scalar inside `if` raises the ambiguous-truth-value
  `ValueError` (except in the degenerate width-1 case, not modelled), so any
  mask present in the list raises; for all-polygon input the source sorts
  the filtered areas but then indexes the **original** list with the sorted
  position (`shapes[size_sorted_idx[-n]]`), reproduced here verbatim. -/
def nth_largest_shape_in_list (shapes : List PyShape) (n : ℤ)
    (slice_idx : Option ℤ) (image_shape : Option (ℕ × ℕ × ℕ)) :
    Except PyError PyShape :=
  let slice := effectiveSlice slice_idx
  if shapes.length = 0 then
    .error (.valueError "No suitable shapes provided")
  else if (shapes.length : ℤ) < n ∨ n < 1 then
    .error (.valueError "n must be between 1 and the number of shapes provided")
  else
    let fromMask := shapes.all PyShape.isMask
    match slice with
    | none =>
      if fromMask then
        match image_shape with
        | none => .error (.typeError "NoneType is not subscriptable")
        | some (Z, H, W) =>
          ((List.range Z).mapM
              (planePick (shapes.map maskD) (zeros3 Z H W) n.toNat)).map
            (fun picks => PyShape.mask (reduceOr picks))
      else
        .error (.notImplementedError "ROI functionality only supports masks for now")
    | some s =>
      if shapes.any PyShape.isMask then
        .error (.valueError "truth value of an array with more than one element is ambiguous")
      else
        let polys := shapes.map polyD
        let cands := polys.filter (fun p => npRound (firstCoord p) = s)
        let sorted := argsort (cands.map polygon_area)
        if n.toNat ≤ sorted.length then
          .ok (shapes.getD (sorted.getD (sorted.length - n.toNat) 0) (PyShape.poly []))
        else .error (.indexError "index out of bounds")

/-- The per-plane selection exactly as the claim words it (used to state the
per-plane policy): the n-th largest, ranked by total pixel count, among the
masks nonempty on plane `z`, with an all-false volume when the plane has no
nonempty candidate.  Total function; it agrees with `planePick` whenever
each nonempty plane has at least `n` candidates. -/
def planePickTotal (masks : List Mask3) (zeros : Mask3) (n : ℕ) (z : ℕ) :
    Mask3 :=
  let cands := planeCandidates masks z
  if cands.length = 0 then zeros
  else
    let sorted := argsort (cands.map npSum3)
    cands.getD (sorted.getD (sorted.length - n) 0) []

/-- The union, over the depth planes, of each plane's independently selected
n-th largest mask — the value the claim says the all-planes path returns. -/
def perPlaneUnion (masks : List Mask3) (Z H W n : ℕ) : Mask3 :=
  reduceOr ((List.range Z).map (planePickTotal masks (zeros3 Z H W) n))

/-- The shape with the n-th largest **total 3-D** pixel count — the policy
the claim says the all-planes path does NOT implement. -/
def globalNthLargest (masks : List Mask3) (n : ℕ) : Mask3 :=
  let sorted := argsort (masks.map npSum3)
  masks.getD (sorted.getD (sorted.length - n) 0) []

/-- State of a `subROI` object (`siffroi/roi.py`).  In the source `subROI`
is a subclass of `ROI` with the same constructor; subROIs are never nested
further (the serialisation schema is explicitly one level deep), so the
model flattens them to a plain record of the stored attributes. -/
structure SubROIState where
  mask : Option Mask3
  polygon : Option Polygon
  image_shape : Option (List ℕ)
  name : Option String
  slice_idx : Option ℤ
  info_string : Option String
  deriving Repr, DecidableEq

/-- State of a base `ROI` object: the attributes `ROI.__init__` stores
(`_mask`, `_polygon`, `_shape`, `_name`, `slice_idx`, `subROIs`,
`info_string`). -/
structure PyROI where
  mask : Option Mask3
  polygon : Option Polygon
  image_shape : Option (List ℕ)
  name : Option String
  slice_idx : Option ℤ
  subROIs : List SubROIState
  info_string : Option String
  deriving Repr, DecidableEq

/-- `ROI.__init__` (`siffroi/roi.py`): raises `NoROIError` precisely when
`mask`, `polygon` and `image_shape` are all `None` (the source tests
`all([x is None for x in [mask, polygon, image_shape]])`); otherwise the
object is constructed with the given attributes (`subROIs` is stored as
given: the source stores it when nonempty and otherwise initialises `[]`). -/
def ROI.init (mask : Option Mask3) (polygon : Option Polygon)
    (image_shape : Option (List ℕ)) (name : Option String)
    (slice_idx : Option ℤ) (subROIs : List SubROIState)
    (info_string : Option String) : Except PyError PyROI :=
  if mask = none ∧ polygon = none ∧ image_shape = none then
    .error (.noROI "ROI must be defined with either a mask or a polygon and image")
  else
    .ok ⟨mask, polygon, image_shape, name, slice_idx, subROIs, info_string⟩

/-- The `ROI.mask` property: returns the stored mask if there is one
(`astype(bool)` is the identity here) and otherwise raises
`NotImplementedError` (mask-from-polygon is unimplemented). -/
def PyROI.maskProp (r : PyROI) : Except PyError Mask3 :=
  match r.mask with
  | some m => .ok m
  | none => .error (.notImplementedError "Mask from polygon not yet implemented")

/-- `ROI.fuse`: reads both masks, overwrites `self._mask` with their logical
OR, and returns the new mask.  Mutation is made explicit: the result is
(updated self, other — untouched by the source, which only assigns
`self._mask` — and the returned mask). -/
def PyROI.fuse (self other : PyROI) : Except PyError (PyROI × PyROI × Mask3) := do
  let curr ← self.maskProp
  let om ← other.maskProp
  let fused := or3 curr om
  .ok ({ self with mask := some fused }, other, fused)

/-- One step of the `for roi in rois[1:]: new_roi.fuse(roi)` loop: fuse and
keep the mutated accumulator (the return value of `fuse` is discarded by
`from_rois`). -/
def fuseStep (a roi : PyROI) : Except PyError PyROI :=
  (PyROI.fuse a roi).map (fun t => t.1)

/-- `ROI.from_rois`: empty list raises `NoROIError`; a singleton returns the
very object; otherwise the first ROI is repeatedly fused (mutated) with the
rest and a fresh base ROI is built from the fused mask
(`cls(mask = new_roi.mask)`, all other constructor arguments left `None`).
The result pairs the returned ROI with the post-call states of the inputs
(first element mutated, the rest untouched). -/
def ROI.from_rois (rois : List PyROI) : Except PyError (PyROI × List PyROI) :=
  match rois with
  | [] => .error (.noROI "No ROIs provided to fuse")
  | [r] => .ok (r, [r])
  | r :: rest => do
    let newRoi ← rest.foldlM fuseStep r
    let m ← newRoi.maskProp
    let res ← ROI.init (some m) none none none none [] none
    .ok (res, newRoi :: rest)

/-- The mask union `from_rois` accumulates: the first mask OR-folded with
the masks of the remaining ROIs, in list order. -/
def unionOfMasks : List PyROI → Mask3
  | [] => []
  | r :: rest => rest.foldl (fun m roi => or3 m (roi.mask.getD [])) (r.mask.getD [])

/-- The `ViewDirection` enum of `siffroi/roi.py`. -/
inductive ViewDirection where
  | anterior
  | posterior
  | undefined
  deriving Repr, DecidableEq

/-- A 2-D mask whose pixels are real-valued-geometry predicates: the wedge
masks built from `np.angle` comparisons are boolean arrays in numpy but are
not decidable over exact reals, so each pixel is a `Prop`; `height`/`width`
record the numpy array shape. -/
structure PMask2 where
  height : ℕ
  width : ℕ
  pix : ℕ × ℕ → Prop

/-- Default placeholder plane mask (never reached on well-shaped input). -/
def defaultPMask : PMask2 := ⟨0, 0, fun _ => False⟩

/-- `np.zeros_like(slice_mask)` as a predicate mask. -/
def zerosLike (m : Mask2) : PMask2 := ⟨height2 m, width2 m, fun _ => False⟩

/-- List of `true` pixels of a plane, row-major. -/
def truePixels (m : Mask2) : List (ℕ × ℕ) :=
  m.enum.flatMap (fun ir =>
    ir.2.enum.filterMap (fun jb => if jb.2 then some (ir.1, jb.1) else none))

/-- `scipy.ndimage.center_of_mass` of a 2-D boolean mask: the mean row and
column index of the `true` pixels, an exact rational.  On an all-false mask
scipy returns `(nan, nan)`; here the rational division yields `(0, 0)`.
This only diverges when the all-false mask is the plane being segmented —
then every wedge is empty under either center, since each wedge predicate
is conjoined with the (everywhere-false) mask — or when a supplied
center-exclusion mask has an all-false plane while the main mask plane is
nonempty: there numpy propagates the nan center through every angle and
empties all wedges, a case outside this real-valued embedding and outside
the scope of the per-plane partition theorem (which quantifies over finite
real centers). -/
def center_of_mass2 (m : Mask2) : ℚ × ℚ :=
  let pts := truePixels m
  (((pts.map (fun p => (p.1 : ℚ))).sum) / pts.length,
   ((pts.map (fun p => (p.2 : ℚ))).sum) / pts.length)

/-- Cast a rational point to a real point. -/
def toReal2 (c : ℚ × ℚ) : ℝ × ℝ := ((c.1 : ℝ), (c.2 : ℝ))

/-- The rotated complex field of `segment_ellipse`
(`siffroi/ellipsoid_body/rois/ellipse.py`) before any view-direction
inversion: the pixel at (row `p.1`, column `p.2`) becomes `x - i·y` screen
coordinates relative to `center = center_pt[1] - i*center_pt[0]`, is
rotated by `-i` (zero angle faces down the image) and by
`exp(-i*orientation)`. -/
noncomputable def pixelRot (center : ℝ × ℝ) (θ : ℝ) (p : ℕ × ℕ) : ℂ :=
  (((p.2 : ℝ) : ℂ) - Complex.I * ((p.1 : ℝ) : ℂ) -
      (((center.2 : ℝ) : ℂ) - Complex.I * ((center.1 : ℝ) : ℂ))) *
    (-Complex.I) * Complex.exp (-Complex.I * (θ : ℂ))

/-- The complex field whose `np.angle` is compared with the bin
boundaries: the rotated field, inverted (`1.0/cplx_mask`) when viewing
from posterior. -/
noncomputable def pixelComplex (center : ℝ × ℝ) (θ : ℝ) (vd : ViewDirection)
    (p : ℕ × ℕ) : ℂ :=
  if vd = ViewDirection.posterior then (pixelRot center θ p)⁻¹
  else pixelRot center θ p

/-- Whether the angle at pixel `p` is numpy nan: in posterior view the
source computes `1.0/cplx_mask`, and at a pixel whose rotated offset is
exactly zero (the pixel coincides with the center) numpy produces
`nan+nanj`, so `np.angle` is nan and every bin comparison is False.  Lean
has no nan (`0⁻¹ = 0` in `ℝ`/`ℂ`), so the nan pixels are tracked by this
predicate instead.  In anterior view `np.angle(0j) = 0.0`, which is finite
and matches `Complex.arg 0 = 0`. -/
def angleNan (center : ℝ × ℝ) (θ : ℝ) (vd : ViewDirection) (p : ℕ × ℕ) : Prop :=
  vd = ViewDirection.posterior ∧ pixelRot center θ p = 0

/-- `np.angle` of the rotated pixel field, idealised as `Complex.arg`
(both return values in `(-π, π]`, with angle 0 for the zero complex). -/
noncomputable def segAngle (center : ℝ × ℝ) (θ : ℝ) (vd : ViewDirection)
    (p : ℕ × ℕ) : ℝ :=
  Complex.arg (pixelComplex center θ vd p)

/-- The wedge bin boundaries
`np.linspace(-np.pi, np.pi, n_segments+1, endpoint=True)`:
the i-th boundary is `-π + i·(2π/n)`. -/
noncomputable def segAngles (n i : ℕ) : ℝ :=
  -Real.pi + (i : ℝ) * (2 * Real.pi) / (n : ℝ)

/-- The bin indicator `(angle >= angles[i]) * (angle < angles[i+1])` at
one grid entry.  A nan angle (posterior reciprocal at a zero offset, see
`angleNan`) compares False against every boundary, hence the leading
conjunct; at every other pixel `np.angle` is idealised by `Complex.arg`
and the comparisons are the usual half-open ones. -/
def binCond (center : ℝ × ℝ) (θ : ℝ) (vd : ViewDirection) (n i : ℕ)
    (p : ℕ × ℕ) : Prop :=
  ¬ angleNan center θ vd p ∧ segAngles n i ≤ segAngle center θ vd p ∧
    segAngle center θ vd p < segAngles n (i + 1)

/-- Pixel predicate of the i-th ellipse wedge on a square plane: the bin
indicator intersected with the parent mask
(`np.logical_and((angle >= lb) * (angle < ub), ellipse_mask)`). -/
def wedgePix (mask : Mask2) (center : ℝ × ℝ) (θ : ℝ) (vd : ViewDirection)
    (n i : ℕ) : ℕ × ℕ → Prop := fun p =>
  binCond center θ vd n i p ∧ maskAt mask p = true

/-- Pixel predicate of the i-th wedge on a degenerate non-square plane
with one dimension equal to 1: numpy silently broadcasts the `(W, H)` bin
indicator against the `(H, W)` mask to a square `(d, d)` result with
`d = max H W`.  For `H = 1` entry `(a, b)` combines indicator entry
`(a, 0)` — the grid point `x = 0, y = a` — with mask entry `(0, b)`; for
`W = 1` it combines indicator entry `(0, b)` — the grid point
`x = b, y = 0` — with mask entry `(a, 0)`. -/
def broadcastWedgePix (mask : Mask2) (center : ℝ × ℝ) (θ : ℝ)
    (vd : ViewDirection) (n i : ℕ) : ℕ × ℕ → Prop := fun q =>
  if height2 mask = 1 then
    binCond center θ vd n i (q.1, 0) ∧ maskAt mask (0, q.2) = true
  else
    binCond center θ vd n i (0, q.2) ∧ maskAt mask (q.1, 0) = true

/-- `segment_ellipse` (`siffroi/ellipsoid_body/rois/ellipse.py`, lines
261-301) on one plane.

The source builds its coordinate grids with
`np.meshgrid(*(np.arange(dim) for dim in ellipse_mask.shape))` — default
`xy` indexing, so for a plane of shape `(H, W)` the grids have shape
`(W, H)`: the grid entry at index `(i, j)` is `x = j, y = i`.  Three
regimes of the final `np.logical_and(..., ellipse_mask)` follow numpy
broadcasting of `(W, H)` against `(H, W)`:
* `H = W`: elementwise; the grid coincides with the intended screen
  coordinates and the wedge for bin `i` keeps the pixels whose rotated
  angle lies in the half-open bin `[angles[i], angles[i+1])`;
* `H ≠ W` with `H = 1` or `W = 1`: the shapes broadcast silently and numpy
  returns `n_segments` wrong-shaped `(max H W, max H W)` wedge masks (see
  `broadcastWedgePix`);
* `H ≠ W` with both dimensions above 1: the shapes cannot be broadcast and
  numpy raises `ValueError`. -/
def segment_ellipse (mask : Mask2) (center : ℝ × ℝ) (θ : ℝ) (n : ℕ)
    (vd : ViewDirection) : Except PyError (List PMask2) :=
  if height2 mask = width2 mask then
    .ok ((List.range n).map
      (fun i => ⟨height2 mask, width2 mask, wedgePix mask center θ vd n i⟩))
  else if height2 mask = 1 ∨ width2 mask = 1 then
    .ok ((List.range n).map
      (fun i => ⟨max (height2 mask) (width2 mask),
        max (height2 mask) (width2 mask),
        broadcastWedgePix mask center θ vd n i⟩))
  else .error (.valueError "operands could not be broadcast together")

/-- State of an `Ellipse` ROI: the 3-D mask, the optional boolean center
mask (`center_poly`), the orientation, the view direction and the slice
index.  The `Ellipse` class has no `mirrored` attribute. -/
structure EllipseState where
  mask : List Mask2
  center_poly : Option (List Mask2)
  orientation : ℝ
  view_direction : ViewDirection
  slice_idx : Option ℤ

/-- The center used for plane `z` of an ellipse:
`self.center(plane=z)` — the plane's center of mass — when no center mask
is given, else `center_of_mass(self.center_mask[z])`. -/
def ellipseCenterForPlane (e : EllipseState) (z : ℕ) : ℚ × ℚ :=
  match e.center_poly with
  | none => center_of_mass2 (e.mask.getD z [])
  | some cp => center_of_mass2 (cp.getD z [])

/-- The wedge phase sequence of `Ellipse.segment`:
`np.linspace(-np.pi, np.pi, n_segments, endpoint=False)`, whose i-th
element is `-π + i·(2π/n)`. -/
noncomputable def linspaceOpenPi (n : ℕ) : List ℝ :=
  (List.range n).map (fun i : ℕ => -Real.pi + (i : ℝ) * (2 * Real.pi) / (n : ℝ))

/-- State of a `WedgeROI` subROI: its (per-plane stacked) mask, the stored
`phase` (a bare optional float — `WedgeROI.__init__` assigns
`self.phase = phase` with no trailing comma), the view direction, the
name `Wedge {i}` and the slice index. -/
structure WedgeState where
  mask : List PMask2
  phase : Option ℝ
  view_direction : ViewDirection
  name : String
  slice_idx : Option ℤ

/-- The subROI construction loop of `Ellipse.segment`: zip the wedge masks
with the open-ended linspace and build one `WedgeROI` per pair. -/
noncomputable def buildWedges (masks : List (List PMask2)) (n : ℕ)
    (vd : ViewDirection) (slice_idx : Option ℤ) : List WedgeState :=
  ((masks.zip (linspaceOpenPi n)).enum).map
    (fun iw => ⟨iw.2.1, some iw.2.2, vd, "Wedge " ++ toString iw.1, slice_idx⟩)

/-- `Ellipse.segment` (`siffroi/ellipsoid_body/rois/ellipse.py`, lines
117-178).  With `slice_idx` unset, each plane is segmented independently
(`segment_ellipse` with that plane's center) and the per-plane wedge masks
are stacked back together (`np.swapaxes`: wedge `i` collects plane-mask
`i` of every plane).  With `slice_idx` set, the source passes the full 3-D
stored mask to the 2-D `segment_ellipse`, whose grid construction
`grid_xx, grid_yy = np.meshgrid(...)` then unpacks three meshgrid arrays
into two names and raises `ValueError` — the `EllipseState` mask is a
volume, as built by every extraction protocol in the source. -/
noncomputable def Ellipse.segment (e : EllipseState) (n : ℕ) :
    Except PyError (List WedgeState) :=
  match e.slice_idx with
  | none => do
    let slicewise ← (List.range e.mask.length).mapM (fun z =>
      segment_ellipse (e.mask.getD z []) (toReal2 (ellipseCenterForPlane e z))
        e.orientation n e.view_direction)
    let masks := (List.range n).map
      (fun i => slicewise.map (fun s => s.getD i defaultPMask))
    .ok (buildWedges masks n e.view_direction e.slice_idx)
  | some _ => .error (.valueError "too many values to unpack")

/-- Row-major list of all pixel indices of an `H × W` plane. -/
def rowMajor (H W : ℕ) : List (ℕ × ℕ) :=
  (List.range H).flatMap (fun i => (List.range W).map (fun j => (i, j)))

/-- The centroid of a fan plane as the complex number
`-centroid[0]*1j + centroid[1]` (x + i·y screen coordinates with y negated). -/
noncomputable def fanCentroidC (m : Mask2) : ℂ :=
  (((center_of_mass2 m).2 : ℝ) : ℂ) -
    Complex.I * (((center_of_mass2 m).1 : ℝ) : ℂ)

/-- The complex offset field of `_single_segmentation`
(`siffroi/fan_shaped_body/rois/fan.py`): `cplx_centroid - (x - i·y)` at
pixel (row `p.1`, column `p.2`); the fan code builds its grids with
`indexing='ij'`, so the grids match the mask shape for every `(H, W)`. -/
noncomputable def fanCplx (m : Mask2) (p : ℕ × ℕ) : ℂ :=
  fanCentroidC m - (((p.2 : ℝ) : ℂ) - Complex.I * ((p.1 : ℝ) : ℂ))

/-- The score whose argmax is the "most downward point along the
orientation axis": `np.imag(cplx_mask*np.exp(-1j*orientation))*slice_mask`. -/
noncomputable def downwardScore (m : Mask2) (θ : ℝ) (p : ℕ × ℕ) : ℝ :=
  (fanCplx m p * Complex.exp (-Complex.I * (θ : ℂ))).im *
    (if maskAt m p then 1 else 0)

/-- Row-major position of a pixel, for resolving `np.argmax` ties
(numpy returns the first maximising index in C order). -/
def rmPos (W : ℕ) (p : ℕ × ℕ) : ℕ := p.1 * W + p.2

/-- `q` is the pixel `np.unravel_index(np.argmax(downwardScore))` selects:
a maximiser of the score, first in row-major order among maximisers. -/
def firstArgmaxDownward (m : Mask2) (θ : ℝ) (q : ℕ × ℕ) : Prop :=
  q ∈ rowMajor (height2 m) (width2 m) ∧
    (∀ r ∈ rowMajor (height2 m) (width2 m), downwardScore m θ r ≤ downwardScore m θ q) ∧
    (∀ r ∈ rowMajor (height2 m) (width2 m),
      downwardScore m θ r = downwardScore m θ q → rmPos (width2 m) q ≤ rmPos (width2 m) r)

/-- The hub point: the orientation-rotated real part of the centroid
combined with the orientation-rotated imaginary part of the most-downward
point `q`, rotated back by `+orientation`. -/
noncomputable def fanHub (m : Mask2) (θ : ℝ) (q : ℕ × ℕ) : ℂ :=
  (((fanCentroidC m * Complex.exp (-Complex.I * (θ : ℂ))).re : ℂ) +
      Complex.I * ((((q.2 : ℝ) : ℂ) - Complex.I * ((q.1 : ℝ) : ℂ)) *
        Complex.exp (-Complex.I * (θ : ℂ))).im) *
    Complex.exp (Complex.I * (θ : ℂ))

/-- The per-pixel angle array of `_single_segmentation`:
`-np.angle((grid - hub)*exp(i*orientation)) * slice_mask`, negated again for
a posterior view. -/
noncomputable def fanAngle (m : Mask2) (θ : ℝ) (vd : ViewDirection)
    (q : ℕ × ℕ) (p : ℕ × ℕ) : ℝ :=
  (if vd = ViewDirection.posterior then -1 else 1) *
    (-(Complex.arg ((((p.2 : ℝ) : ℂ) - Complex.I * ((p.1 : ℝ) : ℂ) - fanHub m θ q) *
        Complex.exp (Complex.I * (θ : ℂ)))) *
      (if maskAt m p then 1 else 0))

/-- `lo` is `angles.min()` over the whole plane (masked-out pixels
contribute 0, as in the source, where the angle array is multiplied by the
mask before taking the range). -/
def isAngleMin (m : Mask2) (θ : ℝ) (vd : ViewDirection) (q : ℕ × ℕ)
    (lo : ℝ) : Prop :=
  (∃ r ∈ rowMajor (height2 m) (width2 m), fanAngle m θ vd q r = lo) ∧
    ∀ r ∈ rowMajor (height2 m) (width2 m), lo ≤ fanAngle m θ vd q r

/-- `hi` is `angles.max()` over the whole plane. -/
def isAngleMax (m : Mask2) (θ : ℝ) (vd : ViewDirection) (q : ℕ × ℕ)
    (hi : ℝ) : Prop :=
  (∃ r ∈ rowMajor (height2 m) (width2 m), fanAngle m θ vd q r = hi) ∧
    ∀ r ∈ rowMajor (height2 m) (width2 m), fanAngle m θ vd q r ≤ hi

/-- Pixel predicate of the k-th fan wedge: the most-downward point, the
angle range `[angles.min(), angles.max()]` and the `n_segments+1` linspace
boundaries are all determined by the plane, and the pixel's angle must lie
in the half-open k-th bin, intersected with the mask. -/
def fanWedgePix (m : Mask2) (θ : ℝ) (n : ℕ) (vd : ViewDirection) (k : ℕ) :
    ℕ × ℕ → Prop := fun p =>
  ∃ q lo hi, firstArgmaxDownward m θ q ∧ isAngleMin m θ vd q lo ∧
    isAngleMax m θ vd q hi ∧
    (lo + (k : ℝ) * (hi - lo) / (n : ℝ) ≤ fanAngle m θ vd q p ∧
      fanAngle m θ vd q p < lo + ((k : ℝ) + 1) * (hi - lo) / (n : ℝ)) ∧
    maskAt m p = true

/-- `_single_segmentation` (`siffroi/fan_shaped_body/rois/fan.py`, lines
218-285): a fully empty plane short-circuits to `n_segments` copies of
`np.zeros_like(slice_mask)` (the centroid, most-downward point and hub are
never computed); otherwise the plane is divided into `n_segments` angular
bins between the observed angle extremes around the hub. -/
def single_segmentation (m : Mask2) (θ : ℝ) (n : ℕ) (vd : ViewDirection) :
    List PMask2 :=
  if anyTrue2 m = false then List.replicate n (zerosLike m)
  else (List.range n).map (fun k => ⟨height2 m, width2 m, fanWedgePix m θ n vd k⟩)

/-- The column phase sequence of `fit_triangles`:
`np.linspace(0, 2*np.pi, n_segments, endpoint=False)`, whose i-th element
is `i·(2π/n)`. -/
noncomputable def linspaceOpenTau (n : ℕ) : List ℝ :=
  (List.range n).map (fun i : ℕ => (i : ℝ) * (2 * Real.pi) / (n : ℝ))

/-- State of a `Column` subROI.  `Column.__init__` assigns
`self.phase = phase,` — note the trailing comma in the source (fan.py line
193): the stored attribute is the 1-tuple `(phase,)`, modelled as a
singleton list, not the bare float. -/
structure ColumnState where
  mask : List PMask2
  phase : List (Option ℝ)
  view_direction : ViewDirection

/-- `fit_triangles` (`siffroi/fan_shaped_body/rois/fan.py`, lines 206-313):
segment every plane with `_single_segmentation`, stack per-wedge
(`np.swapaxes`), compute the open-ended phase linspace, reverse it when
`mirrored`, and build one `Column` per (mask, phase) pair. -/
noncomputable def fit_triangles (mask : List Mask2) (θ : ℝ) (n : ℕ)
    (viewed_from : ViewDirection) (mirrored : Bool) : List ColumnState :=
  let segs := mask.map (fun sm => single_segmentation sm θ n viewed_from)
  let masks := (List.range n).map (fun i => segs.map (fun s => s.getD i defaultPMask))
  let phases0 := linspaceOpenTau n
  let phases := if mirrored then phases0.reverse else phases0
  (masks.zip phases).map (fun mp => ⟨mp.1, [some mp.2], viewed_from⟩)

/-- Default `WedgeState` used for safe list indexing in statements. -/
def defaultWedge : WedgeState := ⟨[], none, ViewDirection.anterior, "", none⟩

/-- Sum of a binary function over the cyclic adjacent pairs of a list
(each element paired with its cyclic predecessor, as the shoelace sum
pairs coordinates after `np.roll(·, 1)`). -/
def cyclicPairSum (g : α → α → ℚ) (l : List α) : ℚ :=
  ((l.zip (roll1 l)).map (fun q => g q.1 q.2)).sum

/-- The shoelace summand: cross term of a vertex and its cyclic
predecessor. -/
def shoelaceG (a b : List ℚ) : ℚ :=
  lastCoord a * sndLastCoord b - sndLastCoord a * lastCoord b

/-- The unit square with vertices (x,y) = (0,0), (1,0), (1,1), (0,1): each
vertex is stored as its coordinate list, whose last entry is x and whose
second-to-last entry is y. -/
def unitSquare : Polygon := [[0, 0], [0, 1], [1, 1], [1, 0]]

/-- Example mask A: three pixels on plane 0, none on plane 1. -/
def exA : Mask3 := [[[true, true, true]], [[false, false, false]]]

/-- Example mask B: empty on plane 0, one pixel on plane 1. -/
def exB : Mask3 := [[[false, false, false]], [[true, false, false]]]

/-- Example all-false mask over the two-plane volume. -/
def exZeroMask : Mask3 := [[[false, false, false]], [[false, false, false]]]

/-! ## Theorems -/

/-- C6 (counterexample): constructing a base ROI with no mask and no
polygon but with an image shape does NOT raise — the source only raises
when all three of mask, polygon, image_shape are `None` — contradicting
the claim that the constructor raises No-ROI "regardless of whether an
image_shape is supplied". -/
theorem roi_init_shape_only_ok :
    ROI.init none none (some [2, 3, 3]) none none [] none =
      .ok ⟨none, none, some [2, 3, 3], none, none, [], none⟩ := rfl

/-- C6 (amended): `ROI.__init__` raises the No-ROI error exactly when the
mask, the polygon and the image shape are all `None`; in particular
`Region(mask=None, polygon=None, image_shape=None)` raises No-ROI, but
supplying an image shape alone avoids the error. -/
theorem roi_init_error_iff (m : Option Mask3) (p : Option Polygon)
    (s : Option (List ℕ)) (nm : Option String) (si : Option ℤ)
    (subs : List SubROIState) (info : Option String) :
    (ROI.init m p s nm si subs info =
        .error (.noROI "ROI must be defined with either a mask or a polygon and image"))
      ↔ (m = none ∧ p = none ∧ s = none) := by
  unfold ROI.init
  split
  · simp_all
  · simp_all

/-- C6 (witness): the all-`None` construction does raise No-ROI. -/
theorem roi_init_error_iff_witness :
    ROI.init none none none none none [] none =
      .error (.noROI "ROI must be defined with either a mask or a polygon and image") :=
  (roi_init_error_iff none none none none none [] none).mpr ⟨rfl, rfl, rfl⟩

/-- C7 (confirmed): `from_rois([])` raises No-ROI; `from_rois([r])` returns
the very object `r` with no mutation; and for two Regions with masks,
`from_rois([r1, r2])` returns a fresh base Region whose mask is the
elementwise logical OR of the two masks (all other attributes left `None`;
the first input is mutated in passing, see C8). -/
theorem from_rois_spec :
    (ROI.from_rois [] = .error (.noROI "No ROIs provided to fuse")) ∧
    (∀ r : PyROI, ROI.from_rois [r] = .ok (r, [r])) ∧
    (∀ (m1 m2 : Mask3) (p1 p2 : Option Polygon) (s1 s2 : Option (List ℕ))
        (nm1 nm2 : Option String) (si1 si2 : Option ℤ)
        (sub1 sub2 : List SubROIState) (i1 i2 : Option String),
      ROI.from_rois [⟨some m1, p1, s1, nm1, si1, sub1, i1⟩,
          ⟨some m2, p2, s2, nm2, si2, sub2, i2⟩] =
        .ok (⟨some (or3 m1 m2), none, none, none, none, [], none⟩,
          [⟨some (or3 m1 m2), p1, s1, nm1, si1, sub1, i1⟩,
           ⟨some m2, p2, s2, nm2, si2, sub2, i2⟩])) :=
  ⟨rfl, fun _ => rfl,
    fun _ _ _ _ _ _ _ _ _ _ _ _ _ _ => rfl⟩

/-- The fusion loop of `from_rois`: folding `fuse` over the tail
accumulates the OR of all the masks into the first ROI (all inputs must
carry a mask, else `ROI.mask` raises). -/
theorem fuse_foldlM (rest : List PyROI) (acc : PyROI) (macc : Mask3)
    (hacc : acc.mask = some macc)
    (hrest : ∀ r ∈ rest, (PyROI.mask r).isSome = true) :
    rest.foldlM fuseStep acc =
      .ok { acc with
        mask := some (rest.foldl (fun m roi => or3 m (roi.mask.getD [])) macc) } := by
  induction rest generalizing acc macc with
  | nil =>
    have hsame : { acc with mask := some macc } = acc := by
      cases acc
      simp_all
    rw [List.foldl_nil, hsame]
    rfl
  | cons r rs ih =>
    obtain ⟨mr, hmr⟩ := Option.isSome_iff_exists.mp (hrest r (by simp))
    have hstep : fuseStep acc r = .ok { acc with mask := some (or3 macc mr) } := by
      unfold fuseStep PyROI.fuse PyROI.maskProp
      rw [hacc, hmr]
      rfl
    have hrs : ∀ x ∈ rs, (PyROI.mask x).isSome = true := by
      intro x hx
      exact hrest x (by simp [hx])
    rw [List.foldlM_cons, hstep]
    show rs.foldlM fuseStep _ = _
    rw [ih { acc with mask := some (or3 macc mr) } (or3 macc mr) rfl hrs]
    simp [hmr]

/-- C8 (confirmed): for a list of two or more Regions (all carrying masks),
`from_rois` mutates its first argument in place: after the call, the first
input Region's stored mask is the logical OR of all the input masks, while
every later input is unchanged; and `fuse` itself overwrites only `self`'s
stored mask with the union, leaving the other Region untouched and
returning the union. -/
theorem from_rois_mutates_first :
    (∀ (r1 r2 : PyROI) (rest : List PyROI),
      (∀ r ∈ r1 :: r2 :: rest, (PyROI.mask r).isSome = true) →
      ∃ res states, ROI.from_rois (r1 :: r2 :: rest) = .ok (res, states) ∧
        states =
          { r1 with mask := some (unionOfMasks (r1 :: r2 :: rest)) } :: r2 :: rest) ∧
    (∀ (self other : PyROI) (m1 m2 : Mask3), self.mask = some m1 →
      other.mask = some m2 →
      PyROI.fuse self other =
        .ok ({ self with mask := some (or3 m1 m2) }, other, or3 m1 m2)) := by
  constructor
  · intro r1 r2 rest hall
    obtain ⟨m1, hm1⟩ := Option.isSome_iff_exists.mp (hall r1 (by simp))
    have htail : ∀ r ∈ r2 :: rest, (PyROI.mask r).isSome = true := by
      intro x hx
      exact hall x (by simp_all)
    have hfold := fuse_foldlM (r2 :: rest) r1 m1 hm1 htail
    refine ⟨⟨some (unionOfMasks (r1 :: r2 :: rest)), none, none, none, none, [], none⟩,
      { r1 with mask := some (unionOfMasks (r1 :: r2 :: rest)) } :: r2 :: rest, ?_, rfl⟩
    show (do
      let newRoi ← (r2 :: rest).foldlM fuseStep r1
      let m ← newRoi.maskProp
      let res ← ROI.init (some m) none none none none [] none
      Except.ok (res, newRoi :: r2 :: rest)) = _
    rw [hfold]
    simp only [unionOfMasks]
    rw [hm1]
    rfl
  · intro self other m1 m2 h1 h2
    unfold PyROI.fuse PyROI.maskProp
    rw [h1, h2]
    rfl

/-- C8 (witness): a concrete two-ROI fusion mutating the first input. -/
theorem from_rois_mutates_first_witness :
    ∃ res states,
      ROI.from_rois
          [⟨some [[[true, false]]], none, none, none, none, [], none⟩,
            ⟨some [[[false, true]]], none, none, none, none, [], none⟩] =
        .ok (res, states) ∧
      states =
        { (⟨some [[[true, false]]], none, none, none, none, [], none⟩ : PyROI) with
            mask := some (unionOfMasks
              [⟨some [[[true, false]]], none, none, none, none, [], none⟩,
                ⟨some [[[false, true]]], none, none, none, none, [], none⟩]) } ::
          [⟨some [[[false, true]]], none, none, none, none, [], none⟩] :=
  from_rois_mutates_first.1
    ⟨some [[[true, false]]], none, none, none, none, [], none⟩
    ⟨some [[[false, true]]], none, none, none, none, [], none⟩ []
    (by decide)

/-- C5 (confirmed): with any slice index and any image shape,
`nth_largest_shape_in_list` raises a `ValueError` (the Invalid-Selection
error kind) before any selection whenever the shape list is empty, `n < 1`,
or `n` exceeds the number of shapes. -/
theorem nth_largest_invalid_selection (shapes : List PyShape) (n : ℤ)
    (si : Option ℤ) (img : Option (ℕ × ℕ × ℕ))
    (h : shapes = [] ∨ n < 1 ∨ (shapes.length : ℤ) < n) :
    ∃ msg, nth_largest_shape_in_list shapes n si img = .error (.valueError msg) := by
  by_cases h0 : shapes.length = 0
  · exact ⟨"No suitable shapes provided", by simp [nth_largest_shape_in_list, h0]⟩
  · have hcond : (shapes.length : ℤ) < n ∨ n < 1 := by
      rcases h with he | hn | hl
      · exact absurd (by simp [he]) h0
      · exact .inr hn
      · exact .inl hl
    refine ⟨"n must be between 1 and the number of shapes provided", ?_⟩
    unfold nth_largest_shape_in_list
    rw [if_neg h0, if_pos hcond]

/-- C5 (witness): the empty list raises the Invalid-Selection error. -/
theorem nth_largest_invalid_selection_witness :
    ∃ msg, nth_largest_shape_in_list [] 1 none none = .error (.valueError msg) :=
  nth_largest_invalid_selection [] 1 none none (.inl rfl)

/-- Inserting an index grows the index list by one. -/
theorem insertIdxBy_length [LinearOrder α] [Inhabited α] (keys : List α)
    (i : ℕ) (l : List ℕ) : (insertIdxBy keys i l).length = l.length + 1 := by
  induction l with
  | nil => rfl
  | cons j rest ih =>
    unfold insertIdxBy
    split
    · rfl
    · simp [ih]

/-- `argsort` returns one position per key. -/
theorem argsort_length [LinearOrder α] [Inhabited α] (keys : List α) :
    (argsort keys).length = keys.length := by
  unfold argsort
  have h : ∀ l : List ℕ, (l.foldr (insertIdxBy keys) []).length = l.length := by
    intro l
    induction l with
    | nil => rfl
    | cons a as ih => simp [List.foldr_cons, insertIdxBy_length, ih]
  simp [h (List.range keys.length)]

/-- `List.mapM` into `Except` succeeds pointwise when every element does. -/
theorem exceptMapM_ok {α β : Type} (f : α → Except PyError β) (g : α → β)
    (l : List α) (h : ∀ x ∈ l, f x = .ok (g x)) : l.mapM f = .ok (l.map g) := by
  induction l with
  | nil => rfl
  | cons a as ih =>
    have ha := h a (List.mem_cons_self a as)
    have has : as.mapM f = .ok (as.map g) :=
      ih (fun x hx => h x (List.mem_cons_of_mem _ hx))
    rw [List.mapM_cons, ha, has]
    rfl

/-- When a plane has no nonempty candidate, or at least `n` of them, the
plane pick does not raise and agrees with the claim-side selection. -/
theorem planePick_ok (masks : List Mask3) (zeros : Mask3) (n : ℕ) (z : ℕ)
    (h : planeCandidates masks z = [] ∨ n ≤ (planeCandidates masks z).length) :
    planePick masks zeros n z = .ok (planePickTotal masks zeros n z) := by
  unfold planePick planePickTotal
  by_cases h0 : (planeCandidates masks z).length = 0
  · simp [h0]
  · have hn : n ≤ (argsort ((planeCandidates masks z).map npSum3)).length := by
      rw [argsort_length, List.length_map]
      rcases h with h | h
      · exact absurd (by rw [h]; rfl) h0
      · exact h
    simp [h0, hn]

/-- Wrapping masks as shapes and projecting back is the identity. -/
theorem map_maskD_mask (l : List Mask3) : (l.map PyShape.mask).map maskD = l := by
  induction l with
  | nil => rfl
  | cons a as ih => simp [maskD, ih]

/-- C4 (amended): with `slice_idx` unset and all-mask input,
`nth_largest_shape_in_list` returns the logical OR, over the image's depth
planes, of each plane's independently selected n-th largest mask — sizes
ranked by total pixel count among the masks that are nonempty on that
plane, with an all-false contribution for planes with no nonempty
candidate — provided every plane with a nonempty candidate has at least
`n` of them (otherwise the `-n` index raises, see the counterexample).
The second conjunct exhibits that this is NOT the shape with the n-th
largest total 3-D pixel count: on the example pair the union differs from
the globally largest mask. -/
theorem nth_largest_per_plane_policy :
    (∀ (masks : List Mask3) (Z H W n : ℕ), 1 ≤ n → n ≤ masks.length →
      (∀ z, z < Z →
        planeCandidates masks z = [] ∨ n ≤ (planeCandidates masks z).length) →
      nth_largest_shape_in_list (masks.map PyShape.mask) (n : ℤ) none
          (some (Z, H, W)) =
        .ok (PyShape.mask (perPlaneUnion masks Z H W n))) ∧
    (nth_largest_shape_in_list [PyShape.mask exA, PyShape.mask exB] 1 none
          (some (2, 1, 3)) =
        .ok (PyShape.mask (perPlaneUnion [exA, exB] 2 1 3 1)) ∧
      perPlaneUnion [exA, exB] 2 1 3 1 ≠ globalNthLargest [exA, exB] 1 ∧
      globalNthLargest [exA, exB] 1 = exA) := by
  constructor
  · intro masks Z H W n h1 hlen hplanes
    have hne : ¬ (masks.map PyShape.mask).length = 0 := by
      simp only [List.length_map]
      omega
    have hguard : ¬ (((masks.map PyShape.mask).length : ℤ) < (n : ℤ) ∨ (n : ℤ) < 1) := by
      push_neg
      constructor
      · simp only [List.length_map]
        exact_mod_cast hlen
      · exact_mod_cast h1
    have hmapM : (List.range Z).mapM
        (planePick ((masks.map PyShape.mask).map maskD) (zeros3 Z H W) (n : ℤ).toNat) =
        .ok ((List.range Z).map (planePickTotal masks (zeros3 Z H W) n)) := by
      rw [map_maskD_mask]
      have htn : ((n : ℤ)).toNat = n := Int.toNat_natCast n
      rw [htn]
      exact exceptMapM_ok _ _ _
        (fun z hz => planePick_ok masks (zeros3 Z H W) n z
          (hplanes z (List.mem_range.mp hz)))
    unfold nth_largest_shape_in_list
    rw [if_neg hne, if_neg hguard]
    simp only [effectiveSlice]
    have hall : (masks.map PyShape.mask).all PyShape.isMask = true := by
      simp [List.all_eq_true, PyShape.isMask]
    rw [if_pos hall]
    rw [hmapM]
    rfl
  · refine ⟨rfl, by decide, by decide⟩

/-- C4 (counterexample to the claim as stated): `n = 2` is in range for a
two-element shape list, yet when plane 0 has exactly one nonempty
candidate the all-planes path raises an `IndexError` (`sorted[-2]` on a
length-1 argsort) instead of returning a union. -/
theorem nth_largest_partial_plane_cex :
    nth_largest_shape_in_list [PyShape.mask exA, PyShape.mask exZeroMask] 2 none
        (some (2, 1, 3)) =
      .error (.indexError "index out of bounds for axis 0") := rfl

/-- C4 (witness): the per-plane union on the concrete example pair. -/
theorem nth_largest_per_plane_policy_witness :
    nth_largest_shape_in_list [PyShape.mask exA, PyShape.mask exB] 1 none
        (some (2, 1, 3)) =
      .ok (PyShape.mask (perPlaneUnion [exA, exB] 2 1 3 1)) :=
  nth_largest_per_plane_policy.1 [exA, exB] 2 1 3 1 (by decide) (by decide)
    (by decide)

/-- C9 (confirmed): on a plane whose mask is entirely `False`, the fan
"triangles" per-plane segmentation short-circuits to exactly `n_segments`
all-false masks of the plane's shape — the centroid / most-downward point /
hub computations of the nonempty branch are never reached — and does not
raise (the function is total on this branch). -/
theorem fan_empty_plane (m : Mask2) (θ : ℝ) (n : ℕ) (vd : ViewDirection)
    (h : anyTrue2 m = false) :
    single_segmentation m θ n vd = List.replicate n (zerosLike m) ∧
      (single_segmentation m θ n vd).length = n ∧
      ∀ pm ∈ single_segmentation m θ n vd,
        pm.height = height2 m ∧ pm.width = width2 m ∧ ∀ p, ¬ pm.pix p := by
  have he : single_segmentation m θ n vd = List.replicate n (zerosLike m) := by
    unfold single_segmentation
    rw [if_pos h]
  refine ⟨he, by simp [he], ?_⟩
  intro pm hpm
  rw [he] at hpm
  have hz : pm = zerosLike m := List.eq_of_mem_replicate hpm
  subst hz
  exact ⟨rfl, rfl, fun _ hp => hp⟩

/-- Rolling commutes with mapping. -/
theorem roll1_map (f : α → β) (l : List α) : roll1 (l.map f) = (roll1 l).map f := by
  unfold roll1
  rw [List.getLast?_map, List.map_append, ← List.map_dropLast]
  cases l.getLast? <;> rfl

/-- Dot product of two mapped lists as a sum over the zipped list. -/
theorem dotQ_map_map (f g : α → ℚ) (l m : List α) :
    dotQ (l.map f) (m.map g) = ((l.zip m).map (fun p => f p.1 * g p.2)).sum := by
  induction l generalizing m with
  | nil => simp [dotQ]
  | cons a as ih =>
    cases m with
    | nil => simp [dotQ]
    | cons b bs =>
      simp only [List.map_cons, List.zip_cons_cons, dotQ, List.zipWith_cons_cons,
        List.sum_cons]
      rw [← ih bs]
      rfl

/-- Difference of sums as the sum of differences. -/
theorem sum_map_sub (f g : α → ℚ) (l : List α) :
    (l.map f).sum - (l.map g).sum = (l.map (fun x => f x - g x)).sum := by
  induction l with
  | nil => simp
  | cons a as ih =>
    simp only [List.map_cons, List.sum_cons]
    rw [← ih]
    ring

/-- The shoelace sum is the cyclic-pair sum of the cross terms. -/
theorem shoelace_cps (vs : Polygon) : shoelace vs = cyclicPairSum shoelaceG vs := by
  unfold shoelace cyclicPairSum shoelaceG
  rw [roll1_map, roll1_map, dotQ_map_map, dotQ_map_map]
  exact sum_map_sub _ _ _

/-- The cyclic adjacent pairs of a rotated list are the rotated pairs. -/
theorem pairs_rotate (l : List α) :
    (l.rotate 1).zip (roll1 (l.rotate 1)) = (l.zip (roll1 l)).rotate 1 := by
  cases l with
  | nil => rfl
  | cons x xs =>
    have hne : x :: xs ≠ [] := by simp
    have hrot : (x :: xs).rotate 1 = xs ++ [x] := by
      rw [List.rotate_cons_succ, List.rotate_zero]
    have hroll : roll1 (xs ++ [x]) = x :: xs := by
      unfold roll1
      rw [List.getLast?_concat, List.dropLast_concat]
      rfl
    have hroll2 : roll1 (x :: xs) = (x :: xs).getLast hne :: (x :: xs).dropLast := by
      unfold roll1
      rw [List.getLast?_eq_getLast _ hne]
      rfl
    have hlen : xs.length = (x :: xs).dropLast.length := by simp
    rw [hrot, hroll, hroll2]
    calc (xs ++ [x]).zip (x :: xs)
        = (xs ++ [x]).zip ((x :: xs).dropLast ++ [(x :: xs).getLast hne]) := by
          rw [List.dropLast_append_getLast hne]
      _ = xs.zip ((x :: xs).dropLast) ++ [x].zip [(x :: xs).getLast hne] :=
          List.zip_append hlen
      _ = xs.zip ((x :: xs).dropLast) ++ [(x, (x :: xs).getLast hne)] := rfl
      _ = (((x, (x :: xs).getLast hne) :: xs.zip ((x :: xs).dropLast)).rotate 1) := by
          rw [List.rotate_cons_succ, List.rotate_zero]
      _ = ((x :: xs).zip ((x :: xs).getLast hne :: (x :: xs).dropLast)).rotate 1 := by
          rw [List.zip_cons_cons]

/-- Rotating a list by one step does not change its cyclic-pair sum. -/
theorem cps_rotate_one (g : α → α → ℚ) (l : List α) :
    cyclicPairSum g (l.rotate 1) = cyclicPairSum g l := by
  unfold cyclicPairSum
  rw [pairs_rotate]
  exact List.Perm.sum_eq (List.Perm.map _ (List.rotate_perm _ _))

/-- Rotating a list by any number of steps does not change its cyclic-pair
sum. -/
theorem cps_rotate (g : α → α → ℚ) (k : ℕ) (l : List α) :
    cyclicPairSum g (l.rotate k) = cyclicPairSum g l := by
  induction k generalizing l with
  | zero => rw [List.rotate_zero]
  | succ k ih =>
    have hsplit : l.rotate (k + 1) = (l.rotate 1).rotate k := by
      rw [List.rotate_rotate, Nat.add_comm]
    rw [hsplit, ih (l.rotate 1), cps_rotate_one]

/-- Reversing two equal-length lists reverses their zip. -/
theorem zip_reverse (l₁ : List α) (l₂ : List β) (h : l₁.length = l₂.length) :
    (l₁.zip l₂).reverse = l₁.reverse.zip l₂.reverse := by
  induction l₁ generalizing l₂ with
  | nil =>
    cases l₂ with
    | nil => rfl
    | cons b bs => simp at h
  | cons a as ih =>
    cases l₂ with
    | nil => simp at h
    | cons b bs =>
      have hlen : as.length = bs.length := by simpa using h
      have hrlen : as.reverse.length = bs.reverse.length := by simpa using hlen
      simp only [List.zip_cons_cons, List.reverse_cons]
      rw [ih bs hlen, List.zip_append hrlen]
      rfl

/-- The cyclic adjacent pairs of a reversed list: the swapped pairs of the
one-step rotation, reversed. -/
theorem pairs_reverse (l : List α) :
    l.reverse.zip (roll1 l.reverse) =
      (((l.rotate 1).zip (roll1 (l.rotate 1))).map Prod.swap).reverse := by
  cases l with
  | nil => rfl
  | cons x xs =>
    have hrot : (x :: xs).rotate 1 = xs ++ [x] := by
      rw [List.rotate_cons_succ, List.rotate_zero]
    have hroll : roll1 (xs ++ [x]) = x :: xs := by
      unfold roll1
      rw [List.getLast?_concat, List.dropLast_concat]
      rfl
    have hrev : (x :: xs).reverse = xs.reverse ++ [x] := by simp
    have hroll2 : roll1 (xs.reverse ++ [x]) = x :: xs.reverse := by
      unfold roll1
      rw [List.getLast?_concat, List.dropLast_concat]
      rfl
    rw [hrot, hroll, hrev, hroll2, List.zip_swap, zip_reverse _ _ (by simp)]
    simp

/-- Sum of pointwise negations. -/
theorem sum_map_negQ (f : α → ℚ) (l : List α) :
    (l.map (fun x => -(f x))).sum = -((l.map f).sum) := by
  induction l with
  | nil => simp
  | cons a as ih =>
    simp only [List.map_cons, List.sum_cons, ih]
    ring

/-- Reversing a list negates the cyclic-pair sum of an antisymmetric
function. -/
theorem cps_reverse (g : α → α → ℚ) (hg : ∀ a b, g a b = -(g b a)) (l : List α) :
    cyclicPairSum g l.reverse = -(cyclicPairSum g l) := by
  unfold cyclicPairSum
  rw [pairs_reverse, List.map_reverse, List.sum_reverse, List.map_map]
  have hcongr : (((l.rotate 1).zip (roll1 (l.rotate 1))).map
      ((fun q => g q.1 q.2) ∘ Prod.swap)) =
      (((l.rotate 1).zip (roll1 (l.rotate 1))).map
        (fun q => -(g q.1 q.2))) := by
    refine List.map_congr_left ?_
    intro p _
    exact (hg p.2 p.1).symm ▸ rfl
  rw [hcongr]
  have hneg : (List.map (fun q : α × α => -g q.1 q.2)
      ((l.rotate 1).zip (roll1 (l.rotate 1)))).sum =
      -((List.map (fun q : α × α => g q.1 q.2)
        ((l.rotate 1).zip (roll1 (l.rotate 1)))).sum) :=
    sum_map_negQ (fun q : α × α => g q.1 q.2) _
  rw [hneg]
  have hone := cps_rotate_one g l
  unfold cyclicPairSum at hone
  rw [hone]

/-- C10 (confirmed): `polygon_area` returns exactly 1 on the unit square,
and for every vertex list it is invariant under cyclic rotation of the
list (any starting offset) and under reversing the traversal direction,
since it takes the absolute value of the signed shoelace sum. -/
theorem polygon_area_spec :
    polygon_area unitSquare = 1 ∧
      (∀ (vs : Polygon) (k : ℕ), polygon_area (vs.rotate k) = polygon_area vs) ∧
      (∀ vs : Polygon, polygon_area vs.reverse = polygon_area vs) := by
  refine ⟨by norm_num [polygon_area, unitSquare, shoelace, dotQ, roll1,
    lastCoord, sndLastCoord], ?_, ?_⟩
  · intro vs k
    unfold polygon_area
    rw [shoelace_cps, shoelace_cps, cps_rotate]
  · intro vs
    unfold polygon_area
    rw [shoelace_cps, shoelace_cps,
      cps_reverse shoelaceG (fun a b => by unfold shoelaceG; ring), abs_neg]

/-- C9 (witness): a concrete 1×2 empty plane with 3 segments. -/
theorem fan_empty_plane_witness :
    single_segmentation [[false, false]] 0 3 ViewDirection.anterior =
        List.replicate 3 (zerosLike [[false, false]]) ∧
      (single_segmentation [[false, false]] 0 3 ViewDirection.anterior).length = 3 ∧
      ∀ pm ∈ single_segmentation [[false, false]] 0 3 ViewDirection.anterior,
        pm.height = height2 [[false, false]] ∧ pm.width = width2 [[false, false]] ∧
          ∀ p, ¬ pm.pix p :=
  fan_empty_plane [[false, false]] 0 3 ViewDirection.anterior (by decide)

/-- The bin boundaries are monotone in the bin index. -/
theorem segAngles_mono (n : ℕ) {i j : ℕ} (hij : i ≤ j) :
    segAngles n i ≤ segAngles n j := by
  unfold segAngles
  have hij' : (i : ℝ) ≤ (j : ℝ) := by exact_mod_cast hij
  have h2pi : (0 : ℝ) ≤ 2 * Real.pi := by positivity
  have hn : (0 : ℝ) ≤ (n : ℝ) := by positivity
  gcongr

/-- The last bin boundary is exactly `π`. -/
theorem segAngles_last (n : ℕ) (hn : 1 ≤ n) : segAngles n n = Real.pi := by
  unfold segAngles
  have hne : (n : ℝ) ≠ 0 := Nat.cast_ne_zero.mpr (by omega)
  field_simp
  ring

/-- Every angle in `[-π, π)` lies in exactly one half-open linspace bin;
this is the existence half. -/
theorem bin_exists (n : ℕ) (hn : 1 ≤ n) (a : ℝ) (h1 : -Real.pi ≤ a)
    (h2 : a < Real.pi) :
    ∃ i, i < n ∧ segAngles n i ≤ a ∧ a < segAngles n (i + 1) := by
  have hpi : (0 : ℝ) < Real.pi := Real.pi_pos
  have hnpos : (0 : ℝ) < (n : ℝ) := by exact_mod_cast hn
  set T : ℝ := (a + Real.pi) * n / (2 * Real.pi) with hT
  have hT0 : 0 ≤ T := by
    apply div_nonneg
    · apply mul_nonneg (by linarith) (by positivity)
    · positivity
  have hTn : T < n := by
    rw [hT, div_lt_iff₀ (by positivity)]
    calc (a + Real.pi) * n < (2 * Real.pi) * n := by
          apply mul_lt_mul_of_pos_right (by linarith) hnpos
      _ = (n : ℝ) * (2 * Real.pi) := by ring
  have hkey : T * (2 * Real.pi) / n = a + Real.pi := by
    rw [hT]
    field_simp
  have hfle : (⌊T⌋₊ : ℝ) ≤ T := Nat.floor_le hT0
  have hflt : T < (⌊T⌋₊ : ℝ) + 1 := Nat.lt_floor_add_one T
  refine ⟨⌊T⌋₊, ?_, ?_, ?_⟩
  · exact_mod_cast (Nat.floor_lt hT0).mpr hTn
  · unfold segAngles
    have hle2 : (⌊T⌋₊ : ℝ) * (2 * Real.pi) / n ≤ T * (2 * Real.pi) / n := by
      gcongr
    linarith [hkey ▸ hle2]
  · unfold segAngles
    have hlt2 : T * (2 * Real.pi) / n < ((⌊T⌋₊ : ℝ) + 1) * (2 * Real.pi) / n := by
      apply (div_lt_div_iff_of_pos_right hnpos).mpr
      apply mul_lt_mul_of_pos_right hflt (by positivity)
    push_cast
    linarith [hkey ▸ hlt2]

/-- Workhorse for C1: on a square plane, `segment_ellipse` returns exactly
`n` wedges, pairwise disjoint, whose union is the plane mask minus the
pixels whose rotated angle is exactly `+π` (the half-open final bin) and
minus the nan pixels (in posterior view, a pixel coinciding exactly with
the center, whose reciprocal is `nan+nanj` in numpy). -/
theorem segment_ellipse_props (m : Mask2) (c : ℝ × ℝ) (θ : ℝ) (n : ℕ)
    (vd : ViewDirection) (hn : 1 ≤ n) (hsq : height2 m = width2 m) :
    ∃ es, segment_ellipse m c θ n vd = .ok es ∧ es.length = n ∧
      es.Pairwise (fun w1 w2 => ∀ p, ¬(w1.pix p ∧ w2.pix p)) ∧
      (∀ p, (maskAt m p = true ∧ ¬ angleNan c θ vd p ∧
          segAngle c θ vd p ≠ Real.pi) ↔
        ∃ w ∈ es, w.pix p) := by
  have hok : segment_ellipse m c θ n vd = .ok ((List.range n).map
      (fun i => ⟨height2 m, width2 m, wedgePix m c θ vd n i⟩)) := by
    unfold segment_ellipse
    rw [if_pos hsq]
  refine ⟨_, hok, by simp, ?_, ?_⟩
  · rw [List.pairwise_map]
    apply List.Pairwise.imp ?_ (List.pairwise_lt_range n)
    intro i j hij
    intro p hcontra
    obtain ⟨⟨⟨hn1, hlb1, hub1⟩, hm1⟩, ⟨⟨hn2, hlb2, hub2⟩, hm2⟩⟩ := hcontra
    have hle : segAngles n (i + 1) ≤ segAngles n j :=
      segAngles_mono n (show i + 1 ≤ j from hij)
    linarith
  · intro p
    constructor
    · rintro ⟨hmask, hnan, hne⟩
      have harg := Complex.arg_mem_Ioc (pixelComplex c θ vd p)
      rw [Set.mem_Ioc] at harg
      have hlt : segAngle c θ vd p < Real.pi := lt_of_le_of_ne harg.2 hne
      obtain ⟨i, hi, hlb, hub⟩ := bin_exists n hn (segAngle c θ vd p)
        (le_of_lt harg.1) hlt
      exact ⟨⟨height2 m, width2 m, wedgePix m c θ vd n i⟩,
        List.mem_map.mpr ⟨i, List.mem_range.mpr hi, rfl⟩, ⟨hnan, hlb, hub⟩, hmask⟩
    · rintro ⟨w, hw, hpix⟩
      obtain ⟨i, hi, rfl⟩ := List.mem_map.mp hw
      obtain ⟨⟨hnan, hlb, hub⟩, hmask⟩ := hpix
      refine ⟨hmask, hnan, ?_⟩
      have hi1 : i + 1 ≤ n := List.mem_range.mp hi
      have hlast := segAngles_mono n hi1
      rw [segAngles_last n hn] at hlast
      exact ne_of_lt (by linarith)

/-- On a degenerate non-square plane (one dimension equal to 1), the
broadcast silently succeeds: `n` wedges are produced, but their shape is
the wrong `(max H W, max H W)` instead of the plane shape. -/
theorem segment_ellipse_broadcast (m : Mask2) (c : ℝ × ℝ) (θ : ℝ) (n : ℕ)
    (vd : ViewDirection) (hne : height2 m ≠ width2 m)
    (hdeg : height2 m = 1 ∨ width2 m = 1) :
    ∃ es, segment_ellipse m c θ n vd = .ok es ∧ es.length = n ∧
      ∀ w ∈ es, w.height = max (height2 m) (width2 m) ∧
        w.width = max (height2 m) (width2 m) := by
  unfold segment_ellipse
  rw [if_neg hne, if_pos hdeg]
  refine ⟨_, rfl, by simp, ?_⟩
  intro w hw
  obtain ⟨i, _, rfl⟩ := List.mem_map.mp hw
  exact ⟨rfl, rfl⟩

/-- On a non-square plane with both dimensions above 1, the broadcast
fails and a `ValueError` is raised: no wedges are produced. -/
theorem segment_ellipse_raises (m : Mask2) (c : ℝ × ℝ) (θ : ℝ) (n : ℕ)
    (vd : ViewDirection) (hne : height2 m ≠ width2 m)
    (h1 : height2 m ≠ 1) (h2 : width2 m ≠ 1) :
    segment_ellipse m c θ n vd =
      .error (.valueError "operands could not be broadcast together") := by
  unfold segment_ellipse
  rw [if_neg hne, if_neg (by tauto)]

/-- The nan pixels are exactly the posterior-view pixels coinciding with
the center: the rotated offset vanishes iff `x = center_x` and
`y = center_y`, since the rotation factors are nonzero. -/
theorem angleNan_iff (c : ℝ × ℝ) (θ : ℝ) (vd : ViewDirection) (p : ℕ × ℕ) :
    angleNan c θ vd p ↔
      (vd = ViewDirection.posterior ∧ (p.2 : ℝ) = c.2 ∧ (p.1 : ℝ) = c.1) := by
  unfold angleNan pixelRot
  have hexp : Complex.exp (-Complex.I * (θ : ℂ)) ≠ 0 := Complex.exp_ne_zero _
  have hni : (-Complex.I : ℂ) ≠ 0 := by simp [Complex.I_ne_zero]
  have hbase : (((p.2 : ℝ) : ℂ) - Complex.I * ((p.1 : ℝ) : ℂ) -
        (((c.2 : ℝ) : ℂ) - Complex.I * ((c.1 : ℝ) : ℂ))) *
        (-Complex.I) * Complex.exp (-Complex.I * (θ : ℂ)) = 0 ↔
      ((p.2 : ℝ) : ℂ) - Complex.I * ((p.1 : ℝ) : ℂ) -
        (((c.2 : ℝ) : ℂ) - Complex.I * ((c.1 : ℝ) : ℂ)) = 0 := by
    rw [mul_eq_zero, mul_eq_zero]
    simp [hexp, hni]
  rw [hbase]
  constructor
  · rintro ⟨hvd, h0⟩
    rw [Complex.ext_iff] at h0
    simp only [Complex.sub_re, Complex.sub_im, Complex.mul_re, Complex.mul_im,
      Complex.I_re, Complex.I_im, Complex.ofReal_re, Complex.ofReal_im,
      Complex.zero_re, Complex.zero_im] at h0
    obtain ⟨hre, him⟩ := h0
    refine ⟨hvd, by linarith, by linarith⟩
  · rintro ⟨hvd, hx, hy⟩
    refine ⟨hvd, ?_⟩
    rw [Complex.ext_iff]
    simp [hx, hy]

/-- Unfolding of the all-planes arm of `Ellipse.segment`. -/
theorem Ellipse.segment_none_eq (planes : List Mask2) (cp : Option (List Mask2))
    (θ : ℝ) (vd : ViewDirection) (n : ℕ) :
    Ellipse.segment ⟨planes, cp, θ, vd, none⟩ n =
      ((List.range planes.length).mapM (fun z =>
        segment_ellipse (planes.getD z [])
          (toReal2 (ellipseCenterForPlane ⟨planes, cp, θ, vd, none⟩ z)) θ n vd)).bind
        (fun slicewise => .ok (buildWedges ((List.range n).map
          (fun i => slicewise.map (fun s => s.getD i defaultPMask))) n vd none)) := rfl

/-- When every plane is square, every per-plane `segment_ellipse` call of
`Ellipse.segment` succeeds; this computes the resulting plane lists. -/
theorem ellipse_mapM_ok (planes : List Mask2) (cp : Option (List Mask2))
    (θ : ℝ) (vd : ViewDirection) (n : ℕ)
    (hsq : ∀ m ∈ planes, height2 m = width2 m) :
    (List.range planes.length).mapM (fun z =>
        segment_ellipse (planes.getD z [])
          (toReal2 (ellipseCenterForPlane ⟨planes, cp, θ, vd, none⟩ z)) θ n vd) =
      .ok ((List.range planes.length).map (fun z => (List.range n).map
        (fun i => (⟨height2 (planes.getD z []), width2 (planes.getD z []),
          wedgePix (planes.getD z [])
            (toReal2 (ellipseCenterForPlane ⟨planes, cp, θ, vd, none⟩ z))
            θ vd n i⟩ : PMask2)))) := by
  apply exceptMapM_ok
  intro z hz
  have hzlt : z < planes.length := List.mem_range.mp hz
  have hmem : planes.getD z [] ∈ planes := by
    rw [List.getD_eq_getElem?_getD, List.getElem?_eq_getElem hzlt]
    simp [List.getElem_mem hzlt]
  unfold segment_ellipse
  rw [if_pos (hsq _ hmem)]

/-- C1 (amended): for every Ellipse whose mask is a stack of square planes,
segmented across all planes (`slice_idx` unset), `segment(n_segments)` with
`n_segments ≥ 1` produces exactly `n_segments` wedge subROIs; and on every
square plane (with its finite selected center) the per-plane wedge masks
are pairwise disjoint and their union equals the plane mask minus exactly
the pixels whose rotated angle is `+π` (the documented half-open boundary)
and, in posterior view, any mask pixel coinciding exactly with the center
(whose reciprocal is nan, so it drops out of every bin — last conjunct
characterises those pixels).  A non-square plane with both dimensions
above 1 instead raises a broadcast error (third-to-last conjunct and the
counterexample); a degenerate non-square plane with one dimension equal
to 1 is silently broadcast into `n_segments` wrong-shaped
`(max H W) × (max H W)` wedge masks (second-to-last conjunct). -/
theorem ellipse_segment_partition :
    (∀ (planes : List Mask2) (cp : Option (List Mask2)) (θ : ℝ)
        (vd : ViewDirection) (n : ℕ), 1 ≤ n →
      (∀ m ∈ planes, height2 m = width2 m) →
      ∃ ws, Ellipse.segment ⟨planes, cp, θ, vd, none⟩ n = .ok ws ∧
        ws.length = n) ∧
    (∀ (m : Mask2) (c : ℝ × ℝ) (θ : ℝ) (vd : ViewDirection) (n : ℕ),
      1 ≤ n → height2 m = width2 m →
      ∃ es, segment_ellipse m c θ n vd = .ok es ∧ es.length = n ∧
        es.Pairwise (fun w1 w2 => ∀ p, ¬(w1.pix p ∧ w2.pix p)) ∧
        (∀ p, (maskAt m p = true ∧ ¬ angleNan c θ vd p ∧
            segAngle c θ vd p ≠ Real.pi) ↔
          ∃ w ∈ es, w.pix p)) ∧
    (∀ (m : Mask2) (c : ℝ × ℝ) (θ : ℝ) (vd : ViewDirection) (n : ℕ),
      height2 m ≠ width2 m → (height2 m = 1 ∨ width2 m = 1) →
      ∃ es, segment_ellipse m c θ n vd = .ok es ∧ es.length = n ∧
        ∀ w ∈ es, w.height = max (height2 m) (width2 m) ∧
          w.width = max (height2 m) (width2 m)) ∧
    (∀ (m : Mask2) (c : ℝ × ℝ) (θ : ℝ) (vd : ViewDirection) (n : ℕ),
      height2 m ≠ width2 m → height2 m ≠ 1 → width2 m ≠ 1 →
      segment_ellipse m c θ n vd =
        .error (.valueError "operands could not be broadcast together")) ∧
    (∀ (c : ℝ × ℝ) (θ : ℝ) (vd : ViewDirection) (p : ℕ × ℕ),
      angleNan c θ vd p ↔
        (vd = ViewDirection.posterior ∧ (p.2 : ℝ) = c.2 ∧ (p.1 : ℝ) = c.1)) := by
  refine ⟨?_, fun m c θ vd n hn hsq => segment_ellipse_props m c θ n vd hn hsq,
    fun m c θ vd n hne hdeg => segment_ellipse_broadcast m c θ n vd hne hdeg,
    fun m c θ vd n hne h1 h2 => segment_ellipse_raises m c θ n vd hne h1 h2,
    fun c θ vd p => angleNan_iff c θ vd p⟩
  intro planes cp θ vd n hn hsq
  have hseg : Ellipse.segment ⟨planes, cp, θ, vd, none⟩ n =
      .ok (buildWedges ((List.range n).map
        (fun i => ((List.range planes.length).map (fun z => (List.range n).map
          (fun j => (⟨height2 (planes.getD z []), width2 (planes.getD z []),
            wedgePix (planes.getD z [])
              (toReal2 (ellipseCenterForPlane ⟨planes, cp, θ, vd, none⟩ z))
              θ vd n j⟩ : PMask2)))).map (fun s => s.getD i defaultPMask)))
        n vd none) := by
    rw [Ellipse.segment_none_eq, ellipse_mapM_ok planes cp θ vd n hsq]
    rfl
  exact ⟨_, hseg, by simp [buildWedges, linspaceOpenPi]⟩

/-- C1 (counterexample to the claim as stated): on a non-square (2×3)
all-true plane, `segment_ellipse` raises a broadcast `ValueError` — the
`xy`-indexed meshgrid is transposed against the mask — so no wedges are
produced at all, contradicting the claim for "every Ellipse with a boolean
mask". -/
theorem ellipse_segment_nonsquare_cex :
    segment_ellipse [[true, true, true], [true, true, true]] (0, 0) 0 1
        ViewDirection.anterior =
      .error (.valueError "operands could not be broadcast together") ∧
    Ellipse.segment ⟨[[[true, true, true], [true, true, true]]], none, 0,
        ViewDirection.anterior, none⟩ 1 =
      .error (.valueError "operands could not be broadcast together") :=
  ⟨rfl, rfl⟩

/-- C1 (witness): a square 1×1 plane with two wedges at both levels, a
degenerate 1×3 plane that silently broadcasts, and a 3×2 plane that
raises. -/
theorem ellipse_segment_partition_witness :
    (∃ ws, Ellipse.segment ⟨[[[true]]], none, 0, ViewDirection.anterior, none⟩ 2 =
        .ok ws ∧ ws.length = 2) ∧
    (∃ es, segment_ellipse [[true]] (0, 0) 0 2 ViewDirection.anterior = .ok es ∧
      es.length = 2 ∧
      es.Pairwise (fun w1 w2 => ∀ p, ¬(w1.pix p ∧ w2.pix p)) ∧
      (∀ p, (maskAt [[true]] p = true ∧
          ¬ angleNan (0, 0) 0 ViewDirection.anterior p ∧
          segAngle (0, 0) 0 ViewDirection.anterior p ≠ Real.pi) ↔
        ∃ w ∈ es, w.pix p)) ∧
    (∃ es, segment_ellipse [[true, true, true]] (0, 0) 0 2
        ViewDirection.anterior = .ok es ∧ es.length = 2 ∧
      ∀ w ∈ es, w.height = max (height2 [[true, true, true]])
          (width2 [[true, true, true]]) ∧
        w.width = max (height2 [[true, true, true]])
          (width2 [[true, true, true]])) ∧
    (segment_ellipse [[true, true], [true, true], [true, true]] (0, 0) 0 2
        ViewDirection.anterior =
      .error (.valueError "operands could not be broadcast together")) :=
  ⟨ellipse_segment_partition.1 [[[true]]] none 0 ViewDirection.anterior 2
      (by decide) (by decide),
    ellipse_segment_partition.2.1 [[true]] (0, 0) 0 ViewDirection.anterior 2
      (by decide) (by decide),
    ellipse_segment_partition.2.2.1 [[true, true, true]] (0, 0) 0
      ViewDirection.anterior 2 (by decide) (by decide),
    ellipse_segment_partition.2.2.2.1 [[true, true], [true, true], [true, true]]
      (0, 0) 0 ViewDirection.anterior 2 (by decide) (by decide) (by decide)⟩

/-- Element extraction from the wedge-construction zip: the i-th wedge
carries the i-th stacked mask and the i-th open-linspace phase. -/
theorem buildWedges_getElem? (masks : List (List PMask2)) (n : ℕ)
    (vd : ViewDirection) (si : Option ℤ) (i : ℕ)
    (hm : masks.length = n) (hi : i < n) :
    (buildWedges masks n vd si)[i]? =
      some ⟨masks.getD i [], some (-Real.pi + (i : ℝ) * (2 * Real.pi) / (n : ℝ)),
        vd, "Wedge " ++ toString i, si⟩ := by
  have hilt : i < masks.length := hm ▸ hi
  have h1 : masks[i]? = some (masks.getD i []) := by
    rw [List.getD_eq_getElem?_getD, List.getElem?_eq_getElem hilt]
    rfl
  unfold buildWedges linspaceOpenPi
  rw [List.getElem?_map]
  rw [show ∀ l : List (List PMask2 × ℝ), l.enum = l.enumFrom 0 from fun _ => rfl]
  rw [List.getElem?_enumFrom]
  rw [List.zip_eq_zipWith, List.getElem?_zipWith']
  rw [h1, List.getElem?_map, List.getElem?_range hi]
  simp

/-- C2 (amended): for every Ellipse (square planes, all-planes
segmentation), the `i`-th wedge subROI's `phase` equals the `i`-th element
of `np.linspace(-π, π, n_segments, endpoint=False)`, i.e. `-π + i·2π/n` —
not the claimed `linspace(0, 2π, ...)` — and no mirrored reversal exists:
the `Ellipse` class has no `mirrored` attribute and `Ellipse.segment`
never reverses the phase sequence, as the statement's independence from
every other input shows. -/
theorem ellipse_wedge_phase (planes : List Mask2) (cp : Option (List Mask2))
    (θ : ℝ) (vd : ViewDirection) (n : ℕ) (i : ℕ)
    (hsq : ∀ m ∈ planes, height2 m = width2 m) (hi : i < n) :
    ∃ ws, Ellipse.segment ⟨planes, cp, θ, vd, none⟩ n = .ok ws ∧
      (ws.getD i defaultWedge).phase =
        some (-Real.pi + (i : ℝ) * (2 * Real.pi) / (n : ℝ)) := by
  have hseg : Ellipse.segment ⟨planes, cp, θ, vd, none⟩ n =
      .ok (buildWedges ((List.range n).map
        (fun k => ((List.range planes.length).map (fun z => (List.range n).map
          (fun j => (⟨height2 (planes.getD z []), width2 (planes.getD z []),
            wedgePix (planes.getD z [])
              (toReal2 (ellipseCenterForPlane ⟨planes, cp, θ, vd, none⟩ z))
              θ vd n j⟩ : PMask2)))).map (fun s => s.getD k defaultPMask)))
        n vd none) := by
    rw [Ellipse.segment_none_eq, ellipse_mapM_ok planes cp θ vd n hsq]
    rfl
  refine ⟨_, hseg, ?_⟩
  rw [List.getD_eq_getElem?_getD,
    buildWedges_getElem? _ n vd none i (by simp) hi]
  rfl

/-- C2 (counterexample to the claim as stated): with `n_segments = 1` the
sole wedge's phase would be `0` under the claimed
`linspace(0, 2π, 1, endpoint excluded)` (reversal cannot matter for a
singleton), but the code stores `-π`, the first element of
`linspace(-π, π, 1, endpoint=False)`, and `-π ≠ 0`. -/
theorem ellipse_wedge_phase_cex :
    ∃ ws, Ellipse.segment ⟨[[[true]]], none, 0, ViewDirection.anterior, none⟩ 1 =
        .ok ws ∧
      (ws.getD 0 defaultWedge).phase = some (-Real.pi) ∧ (-Real.pi : ℝ) ≠ 0 := by
  have hseg : Ellipse.segment ⟨[[[true]]], none, 0, ViewDirection.anterior, none⟩ 1 =
      .ok (buildWedges ((List.range 1).map
        (fun k => ((List.range ([[[true]]] : List Mask2).length).map
          (fun z => (List.range 1).map
          (fun j => (⟨height2 (([[[true]]] : List Mask2).getD z []),
            width2 (([[[true]]] : List Mask2).getD z []),
            wedgePix (([[[true]]] : List Mask2).getD z [])
              (toReal2 (ellipseCenterForPlane
                ⟨[[[true]]], none, 0, ViewDirection.anterior, none⟩ z))
              0 ViewDirection.anterior 1 j⟩ : PMask2)))).map
          (fun s => s.getD k defaultPMask)))
        1 ViewDirection.anterior none) := by
    rw [Ellipse.segment_none_eq,
      ellipse_mapM_ok [[[true]]] none 0 ViewDirection.anterior 1 (by decide)]
    rfl
  refine ⟨_, hseg, ?_, ?_⟩
  · rw [List.getD_eq_getElem?_getD,
      buildWedges_getElem? _ 1 ViewDirection.anterior none 0 (by simp) (by omega)]
    norm_num
  · simp [Real.pi_ne_zero]

/-- C2 (witness): a 1×1 plane cut into two wedges; the second wedge's
phase is `-π + 1·2π/2`. -/
theorem ellipse_wedge_phase_witness :
    ∃ ws, Ellipse.segment ⟨[[[true]]], none, 0, ViewDirection.anterior, none⟩ 2 =
        .ok ws ∧
      (ws.getD 1 defaultWedge).phase =
        some (-Real.pi + ((1 : ℕ) : ℝ) * (2 * Real.pi) / ((2 : ℕ) : ℝ)) :=
  ellipse_wedge_phase [[[true]]] none 0 ViewDirection.anterior 2 1 (by decide)
    (by decide)

/-- C3 (code bug, evaluated): segmenting a one-plane fan into 2 columns
with `mirrored=True` stores, as each Column's `phase` attribute, the
1-tuple `(phase,)` — here `(π,)` then `(0,)` — rather than the bare floats
`π` and `0` of the reversed `linspace(0, 2π, 2, endpoint=False)`: the
trailing comma in `Column.__init__` (`self.phase = phase,`) wraps the
value. -/
theorem column_phase_stored_as_tuple :
    (fit_triangles [[[true]]] 0 2 ViewDirection.anterior true).map
        ColumnState.phase =
      [[some Real.pi], [some 0]] := by
  have hred : (fit_triangles [[[true]]] 0 2 ViewDirection.anterior true).map
      ColumnState.phase =
      [[some (((1 : ℕ) : ℝ) * (2 * Real.pi) / ((2 : ℕ) : ℝ))],
        [some (((0 : ℕ) : ℝ) * (2 * Real.pi) / ((2 : ℕ) : ℝ))]] := rfl
  rw [hred]
  norm_num

end SiffROI
